import Mathlib

/-!
Verification of the data-download / normalization layer of an algorithmic
trading repository (`dataDownloader.py`).

The pandas dataframes manipulated by the source are modelled shallowly:

* a dataframe is an index name, a list of column names, and a list of rows,
  each row being a timestamp (the index value, a natural number standing for
  the instant encoded by `pd.Timestamp`, e.g. epoch milliseconds) together
  with the list of cell values in column order;
* a cell value is a decimal number, kept in the printed form pandas uses for
  `float64` values: an integer part and a list of fraction digits (pandas
  prints floats via `repr`, which is injective and round-trips);
* pandas operations used by the source (`[::-1]`, column assignment, `del`,
  `rename`, column selection, `sort_index`, `.loc[a:b]`, `pd.concat`) are
  translated one-for-one below; operations that would raise a Python
  exception (`KeyError` on a missing column, `ValueError` on concatenating
  nothing) return `none` / a typed error value.

The actual HTTP transport is abstracted as a function producing the parsed
payload, exactly as the specification treats it (an external collaborator).
-/

/-- A cell value: the decimal form of a pandas float, an integer part plus
the fraction digits.  `pd.DataFrame.to_csv` prints a float via its shortest
round-tripping decimal representation, so a float is in bijection with its
printed decimal; we work directly with that decimal form. -/
structure Cell where
  intPart : Nat
  fracDigits : List (Fin 10)
deriving DecidableEq, Inhabited

/-- Shallow model of a pandas dataframe with a single (timestamp) index:
the index name, the column names in order, and the rows in order.  Each row
carries its index value (a timestamp, modelled as a natural number) and its
cells in column order. -/
structure DataFrame where
  indexName : String
  cols : List String
  rows : List (Nat × List Cell)
deriving DecidableEq

/-- Position of a column name, `none` when the column is absent
(pandas raises `KeyError` there). -/
def DataFrame.colIdx (df : DataFrame) (c : String) : Option Nat :=
  df.cols.findIdx? (fun x => x == c)

/-- Contents of column `c` (`dataframe[c]` read access). -/
def DataFrame.getCol (df : DataFrame) (c : String) : Option (List Cell) :=
  (df.colIdx c).map fun i => df.rows.map fun r => r.2.getD i default

/-- Column assignment `dataframe[c] = vals`: overwrite in place when the
column exists, append a new last column otherwise. -/
def DataFrame.setCol (df : DataFrame) (c : String) (vals : List Cell) : DataFrame :=
  match df.colIdx c with
  | some i => { df with rows := List.zipWith (fun r v => (r.1, r.2.set i v)) df.rows vals }
  | none => { df with
      cols := df.cols ++ [c]
      rows := List.zipWith (fun r v => (r.1, r.2 ++ [v])) df.rows vals }

/-- The statement `dataframe[dst] = dataframe[src]`. -/
def DataFrame.setColFrom (df : DataFrame) (dst src : String) : Option DataFrame :=
  (df.getCol src).map (df.setCol dst)

/-- The statement `del dataframe[c]`. -/
def DataFrame.delCol (df : DataFrame) (c : String) : Option DataFrame :=
  (df.colIdx c).map fun i =>
    { df with
      cols := df.cols.eraseIdx i
      rows := df.rows.map fun r => (r.1, r.2.eraseIdx i) }

/-- The statement `dataframe.rename(columns=...)` for a total renaming map. -/
def DataFrame.renameCols (df : DataFrame) (f : String → String) : DataFrame :=
  { df with cols := df.cols.map f }

/-- The statement `dataframe.index.names = [n]`. -/
def DataFrame.setIndexName (df : DataFrame) (n : String) : DataFrame :=
  { df with indexName := n }

/-- Column projection `dataframe[[c1, ..., ck]]`: the selected columns in
the requested order; `none` when one of them is absent. -/
def DataFrame.selectCols (df : DataFrame) (cs : List String) : Option DataFrame :=
  (cs.mapM df.colIdx).map fun is =>
    { indexName := df.indexName
      cols := cs
      rows := df.rows.map fun r => (r.1, is.map fun i => r.2.getD i default) }

/-- The slice `dataframe[::-1]`. -/
def DataFrame.reverseRows (df : DataFrame) : DataFrame :=
  { df with rows := df.rows.reverse }

/-- Comparison of two rows by their index value. -/
def rowLE (a b : Nat × List Cell) : Bool := a.1 ≤ b.1

/-- The statement `dataframe.sort_index()`: rows reordered into
non-decreasing index order. -/
def DataFrame.sortIndex (df : DataFrame) : DataFrame :=
  { df with rows := df.rows.mergeSort rowLE }

/-- Label slice `dataframe.loc[a:b]` on a monotone timestamp index: the rows
whose timestamp lies in the inclusive interval. -/
def DataFrame.locSlice (df : DataFrame) (a b : Nat) : DataFrame :=
  { df with rows := df.rows.filter fun r => a ≤ r.1 && r.1 ≤ b }

/-- The epilogue shared by every download routine of the source:

`if(startingDate != 0 and endingDate != 0): self.data = self.data.loc[startingDate:endingDate]`

`0` is the caller-side sentinel for an unbounded side of the range. -/
def applyRange (df : DataFrame) (startingDate endingDate : Nat) : DataFrame :=
  if startingDate ≠ 0 ∧ endingDate ≠ 0 then df.locSlice startingDate endingDate else df

/-- The five canonical output columns, in their fixed order. -/
def canonicalCols : List String := ["Open", "High", "Low", "Close", "Volume"]

/-! ## AlphaVantage -/

/-- Column set of a parsed Alpha Vantage payload (`pd.read_csv` of the
response with `index_col='timestamp'`), in delivered order. -/
def avRawCols : List String :=
  ["open", "high", "low", "close", "adjusted_close", "volume",
   "dividend_amount", "split_coefficient"]

/-- The renaming passed to `dataframe.rename` by `AlphaVantage.processDataframe`. -/
def avRename (c : String) : String :=
  if c = "open" then "Open"
  else if c = "high" then "High"
  else if c = "low" then "Low"
  else if c = "close" then "Close"
  else if c = "volume" then "Volume"
  else c

/-- `AlphaVantage.processDataframe`: reverse the rows, copy
`adjusted_close` over `close`, delete the three provider-specific columns,
relabel the index `Timestamp` and rename the remaining columns.  (The final
`index.map(pd.Timestamp)` conversion is the identity here because index
values are already modelled as instants.) -/
def AlphaVantage.processDataframe (df : DataFrame) : Option DataFrame := do
  let df := df.reverseRows
  let df ← df.setColFrom "close" "adjusted_close"
  let df ← df.delCol "adjusted_close"
  let df ← df.delCol "dividend_amount"
  let df ← df.delCol "split_coefficient"
  let df := df.setIndexName "Timestamp"
  pure (df.renameCols avRename)

/-- `AlphaVantage.getDailyData` after the transport call: normalize the
parsed payload, then restrict to the requested range unless a sentinel
bound is present. -/
def AlphaVantage.getDailyData (payload : DataFrame)
    (startingDate endingDate : Nat) : Option DataFrame :=
  (AlphaVantage.processDataframe payload).map fun df =>
    applyRange df startingDate endingDate

/-- The accepted intraday periods of the Alpha Vantage adapter. -/
def AlphaVantage.possiblePeriods : List Nat := [1, 5, 15, 30, 60]

/-- Python's `min(x :: xs, key=key)`: the first element reaching the
minimal key (later elements replace the accumulator only on a strictly
smaller key). -/
def pyMinBy (key : Nat → Nat) (x : Nat) (xs : List Nat) : Nat :=
  xs.foldl (fun acc y => if key y < key acc then y else acc) x

/-- The snapping step of `AlphaVantage.getIntradayData`:
`min(possiblePeriods, key=lambda x:abs(x-timePeriod))`. -/
def AlphaVantage.snapPeriod (timePeriod : Nat) : Nat :=
  pyMinBy (fun x => Nat.dist x timePeriod) 1 [5, 15, 30, 60]

/-- `AlphaVantage.getIntradayData` after abstracting the transport: the
payload fetched depends on the snapped period that is put in the request,
and the rest is the shared normalize-then-restrict epilogue. -/
def AlphaVantage.getIntradayData (fetch : Nat → DataFrame)
    (startingDate endingDate timePeriod : Nat) : Option DataFrame :=
  (AlphaVantage.processDataframe (fetch (AlphaVantage.snapPeriod timePeriod))).map
    fun df => applyRange df startingDate endingDate

/-! ## YahooFinance -/

/-- Column set of a Yahoo Finance daily payload, in delivered order. -/
def yahooRawCols : List String :=
  ["Open", "High", "Low", "Close", "Adj Close", "Volume"]

/-- `YahooFinance.processDataframe`: copy `Adj Close` over `Close`, delete
`Adj Close`, relabel the index and project onto the five canonical columns. -/
def YahooFinance.processDataframe (df : DataFrame) : Option DataFrame := do
  let df ← df.setColFrom "Close" "Adj Close"
  let df ← df.delCol "Adj Close"
  let df := df.setIndexName "Timestamp"
  df.selectCols canonicalCols

/-! ## Binance -/

/-- The twelve positional kline column names installed on the raw frame. -/
def klinesColumns : List String :=
  ["Open time", "Open", "High", "Low", "Close", "Volume", "Close time",
   "Quote asset volume", "Number of trades", "Taker buy base asset volume",
   "Taker buy quote asset volume", "Ignore"]

/-- One kline record of a Binance payload: the open time (epoch
milliseconds, first tuple position) and the eleven remaining fields. -/
structure Kline where
  openTime : Nat
  fields : List Cell
deriving DecidableEq

/-- Parsing of one day's (or one daily request's) kline payload as done
inline in `Binance.getDailyData` / `Binance.getIntradayData`: name the
twelve columns, convert `Open time` to a timestamp, rename it `Timestamp`
and make it the index.  (The `astype(float)` coercions are the identity on
already numeric cells.) -/
def klinesToDataframe (ks : List Kline) : DataFrame :=
  { indexName := "Timestamp"
    cols := klinesColumns.tail
    rows := ks.map fun k => (k.openTime, k.fields) }

/-- `Binance.processDataframe`: sort by the index, then project onto the
five canonical columns. -/
def Binance.processDataframe (df : DataFrame) : Option DataFrame :=
  (df.sortIndex).selectCols canonicalCols

/-- `Binance.getDailyData` after the transport call. -/
def Binance.getDailyData (payload : List Kline)
    (startingDate endingDate : Nat) : Option DataFrame :=
  (Binance.processDataframe (klinesToDataframe payload)).map fun df =>
    applyRange df startingDate endingDate

/-- Milliseconds per calendar day, the stride of `pd.date_range` at daily
frequency (timestamps are modelled in epoch milliseconds). -/
def msPerDay : Nat := 86400000

/-- `pd.date_range(startingDate, endingDate)`: the day starts from
`startingDate` to `endingDate` inclusive, in chronological order; empty
when the range is reversed. -/
def dateRange (startingDate endingDate : Nat) : List Nat :=
  if startingDate ≤ endingDate then
    (List.range ((endingDate - startingDate) / msPerDay + 1)).map
      fun i => startingDate + i * msPerDay
  else []

/-- Typed failures of the download layer: the explicit `raise ValueError`
on a period outside the allow-list, and the exceptions pandas itself would
raise (`pd.concat` of no frames, a missing column). -/
inductive DownloadError where
  | unsupportedPeriod
  | noObjectsToConcatenate
  | keyError
deriving DecidableEq

/-- `pd.concat(dfs)` for frames sharing one column set: rows are chained in
list order; concatenating nothing raises. -/
def concatDataframes : List DataFrame → Option DataFrame
  | [] => none
  | d :: rest =>
    some { indexName := d.indexName
           cols := d.cols
           rows := ((d :: rest).map DataFrame.rows).flatten }

/-- The accepted intraday periods of the Binance adapter (hard allow-list). -/
def Binance.possiblePeriods : List Nat := [5, 15, 30, 60]

/-- The stitching body of `Binance.getIntradayData` (the per-day fetch
loop followed by `processDataframe(pd.concat(dfs))`): each day of the range
is fetched and parsed independently, the parsed frames are concatenated in
day order and the concatenation is normalized once. -/
def Binance.stitchIntraday (fetch : Nat → List Kline)
    (startingDate endingDate : Nat) : Option DataFrame :=
  (concatDataframes ((dateRange startingDate endingDate).map
      fun d => klinesToDataframe (fetch d))).bind Binance.processDataframe

/-- `Binance.getIntradayData` after abstracting the transport: reject a
period outside the allow-list before anything is fetched, then stitch and
finally restrict to the requested range unless a sentinel bound is present. -/
def Binance.getIntradayData (fetch : Nat → List Kline)
    (startingDate endingDate minutes : Nat) : Except DownloadError DataFrame :=
  if minutes ∈ Binance.possiblePeriods then
    match concatDataframes ((dateRange startingDate endingDate).map
        fun d => klinesToDataframe (fetch d)) with
    | none => .error .noObjectsToConcatenate
    | some df =>
      match Binance.processDataframe df with
      | none => .error .keyError
      | some out => .ok (applyRange out startingDate endingDate)
  else .error .unsupportedPeriod

/-! ## CSVHandler

The flat-file layer.  A field of the delimited file is modelled by the
sequence of symbols it is made of: `0`–`9` stand for the digit characters
and `10` for the decimal point.  (The remaining character-level encoding —
commas, newlines, the datetime rendering of the index — is a mechanical
bijection performed by the excluded I/O collaborator.)  The header cells
are kept as the column-name strings themselves. -/

/-- Big-endian base-10 digit string of a natural number, as printed in a
field of the file. -/
def natDigits (n : Nat) : List Nat :=
  if n = 0 then [0] else (Nat.digits 10 n).reverse

/-- Parse a digit string back into a natural number; fails on an empty
field or on a non-digit symbol. -/
def parseNatField (l : List Nat) : Option Nat :=
  if l ≠ [] ∧ l.all (· < 10) then some (Nat.ofDigits 10 l.reverse) else none

/-- Code of the decimal point in the field alphabet. -/
def dotSym : Nat := 10

/-- Printed form of a cell value: integer part, decimal point, fraction
digits (pandas always prints the point for a float value). -/
def printCell (c : Cell) : List Nat :=
  natDigits c.intPart ++ dotSym :: c.fracDigits.map Fin.val

/-- Parse the fraction digits of a printed cell value. -/
def parseFrac (l : List Nat) : Option (List (Fin 10)) :=
  l.mapM fun d => if h : d < 10 then some ⟨d, h⟩ else none

/-- Parse a printed cell value: split at the decimal point, parse both
sides; fails when no point or a stray symbol is present. -/
def parseCell (l : List Nat) : Option Cell :=
  match l.dropWhile (fun d => d ≠ dotSym) with
  | [] => none
  | _ :: frac => do
    let ip ← parseNatField (l.takeWhile fun d => d ≠ dotSym)
    let fd ← parseFrac frac
    pure ⟨ip, fd⟩

/-- The flat file: one header line holding the field names, then one line
per observation, each line being the printed index value followed by the
printed cells in column order. -/
structure CSVFile where
  header : List String
  lines : List (List (List Nat))
deriving DecidableEq

/-- `dataframe.to_csv(path)`: the index name labels the first field of the
header, then the column names; each row is written as the printed index
value followed by the printed cells. -/
def CSVHandler.encode (df : DataFrame) : CSVFile :=
  { header := df.indexName :: df.cols
    lines := df.rows.map fun r => natDigits r.1 :: r.2.map printCell }

/-- `pd.read_csv(path, header=0, index_col='Timestamp', parse_dates=True)`:
take the column names from the header line, use the `Timestamp` field as
the parsed index and parse every remaining field as a value.  (`to_csv`
always writes the index first, so the `Timestamp` lookup is resolved at
the leading position.) -/
def CSVHandler.decode (f : CSVFile) : Option DataFrame :=
  match f.header with
  | [] => none
  | idx :: cols =>
    if idx = "Timestamp" then
      (f.lines.mapM fun line =>
        match line with
        | [] => none
        | tsField :: cellFields => do
          let ts ← parseNatField tsField
          let cells ← cellFields.mapM parseCell
          pure (ts, cells)).map fun rows =>
        { indexName := "Timestamp", cols := cols, rows := rows }
    else none

/-- `CSVHandler.dataframeToCSV(name, dataframe)`: write the encoded file
into the store under `name + '.csv'`. -/
def CSVHandler.dataframeToCSV (name : String) (df : DataFrame)
    (store : String → Option CSVFile) : String → Option CSVFile :=
  fun path => if path = name ++ ".csv" then some (CSVHandler.encode df) else store path

/-- `CSVHandler.CSVToDataframe(name)`: read the file stored under
`name + '.csv'` back into a dataframe. -/
def CSVHandler.CSVToDataframe (name : String)
    (store : String → Option CSVFile) : Option DataFrame :=
  (store (name ++ ".csv")).bind CSVHandler.decode

/-! ## Concrete test data -/

/-- A row of five cell values used by the concrete examples. -/
def exCells : List Cell :=
  [⟨1, [0]⟩, ⟨2, [5]⟩, ⟨0, [5]⟩, ⟨1, [2, 5]⟩, ⟨100, [0]⟩]

/-- A three-row canonical series used as a concrete test input. -/
def exSeries : DataFrame :=
  { indexName := "Timestamp"
    cols := canonicalCols
    rows := [(1, exCells), (2, exCells), (3, exCells)] }

/-! ## Range Selector -/

/-- Range Selector as the specification words it, used only to compare the
code against the specification: keep the rows satisfying every explicit
bound, a sentinel (0) bound restricting nothing on its side. -/
def specRangeSelect (df : DataFrame) (s e : Nat) : DataFrame :=
  { df with rows := df.rows.filter fun r =>
      (s == 0 || decide (s ≤ r.1)) && (e == 0 || decide (r.1 ≤ e)) }

/-- C9: applying the range selection with both bounds set to the unbounded
sentinel returns a series identical to the input. -/
theorem rangeSelector_both_unbounded_identity (df : DataFrame) :
    applyRange df 0 0 = df := by
  simp [applyRange]

/-- C3 counterexample: with the start bound left unbounded (sentinel `0`)
and the explicit end bound `2`, the code returns the full three-row series
instead of the two rows satisfying the explicit bound, so the selection is
not applied on the explicit side. -/
theorem rangeSelector_one_sided_counterexample :
    applyRange exSeries 0 2 = exSeries ∧
      applyRange exSeries 0 2 ≠ specRangeSelect exSeries 0 2 := by
  constructor
  · rfl
  · decide

/-- C3 (amended): whenever at least one bound is the unbounded sentinel,
the range-selection step is skipped entirely and the full normalized series
is returned, the explicit bound included being ignored. -/
theorem rangeSelector_one_sided_skips_filtering (df : DataFrame) (s e : Nat)
    (h : s = 0 ∨ e = 0) : applyRange df s e = df := by
  rcases h with h | h <;> simp [applyRange, h]

/-- Witness for the amended C3 at a concrete input. -/
theorem rangeSelector_one_sided_skips_filtering_witness :
    applyRange exSeries 0 2 = exSeries :=
  rangeSelector_one_sided_skips_filtering exSeries 0 2 (Or.inl rfl)

/-! ## Period snapping -/

/-- The three clauses of the snapping policy, proved for every requested
period: membership in the allow-list, minimality of the absolute
difference, and ties broken toward the smaller value. -/
theorem snapPeriod_spec (t : Nat) :
    AlphaVantage.snapPeriod t ∈ AlphaVantage.possiblePeriods ∧
    (∀ y ∈ AlphaVantage.possiblePeriods,
      Nat.dist (AlphaVantage.snapPeriod t) t ≤ Nat.dist y t) ∧
    (∀ y ∈ AlphaVantage.possiblePeriods,
      Nat.dist y t = Nat.dist (AlphaVantage.snapPeriod t) t →
        AlphaVantage.snapPeriod t ≤ y) := by
  have hd : ∀ a b : Nat, Nat.dist a b = a - b + (b - a) := fun a b => rfl
  simp only [AlphaVantage.snapPeriod, pyMinBy, AlphaVantage.possiblePeriods, List.foldl,
    List.mem_cons, List.not_mem_nil, or_false, forall_eq_or_imp, forall_eq, hd]
  split_ifs <;> omega

/-- C7: the AlphaVantage adapter snaps the requested intraday period to the
nearest element of the allow-list `[1, 5, 15, 30, 60]` by absolute
difference, ties broken toward the smaller value; in particular `7` snaps
to `5`. -/
theorem snapPeriod_nearest :
    (∀ t : Nat,
      AlphaVantage.snapPeriod t ∈ AlphaVantage.possiblePeriods ∧
      (∀ y ∈ AlphaVantage.possiblePeriods,
        Nat.dist (AlphaVantage.snapPeriod t) t ≤ Nat.dist y t) ∧
      (∀ y ∈ AlphaVantage.possiblePeriods,
        Nat.dist y t = Nat.dist (AlphaVantage.snapPeriod t) t →
          AlphaVantage.snapPeriod t ≤ y)) ∧
    AlphaVantage.snapPeriod 7 = 5 :=
  ⟨snapPeriod_spec, rfl⟩

/-- Witness for C7: at the concrete requested period 7 and allow-list
element 15, the snapped period is at least as close. -/
theorem snapPeriod_nearest_witness :
    Nat.dist (AlphaVantage.snapPeriod 7) 7 ≤ Nat.dist 15 7 :=
  (snapPeriod_nearest.1 7).2.1 15 (by decide)

/-! ## Binance allow-list rejection -/

/-- C8: a requested Binance intraday period outside the hard allow-list
`[5, 15, 30, 60]` fails with the unsupported-period error, and the failure
does not depend on the transport at all (no fetch is consulted): the result
is the same for every fetch function. -/
theorem binance_unsupported_period_rejected (minutes : Nat)
    (h : minutes ∉ Binance.possiblePeriods) :
    ∀ (fetch fetch2 : Nat → List Kline) (s e : Nat),
      Binance.getIntradayData fetch s e minutes =
          Except.error DownloadError.unsupportedPeriod ∧
      Binance.getIntradayData fetch s e minutes =
          Binance.getIntradayData fetch2 s e minutes := by
  intro fetch fetch2 s e
  rw [Binance.getIntradayData, Binance.getIntradayData, if_neg h, if_neg h]
  exact ⟨rfl, rfl⟩

/-- Witness for C8 at the concrete period 7 (not in the allow-list). -/
theorem binance_unsupported_period_rejected_witness :
    Binance.getIntradayData (fun _ => []) 1 2 7 =
      Except.error DownloadError.unsupportedPeriod :=
  (binance_unsupported_period_rejected 7 (by decide) (fun _ => []) (fun _ => []) 1 2).1

/-! ## Flat-file round trip -/

/-- Every symbol of a printed natural number is a digit. -/
theorem natDigits_lt (n : Nat) : ∀ d ∈ natDigits n, d < 10 := by
  intro d hd
  unfold natDigits at hd
  split at hd
  · simp at hd; omega
  · exact Nat.digits_lt_base (by norm_num) (List.mem_reverse.mp hd)

/-- Parsing a printed natural number recovers it. -/
theorem parseNatField_natDigits (n : Nat) : parseNatField (natDigits n) = some n := by
  unfold parseNatField
  rw [if_pos]
  · by_cases h : n = 0
    · subst h
      simp [natDigits, Nat.ofDigits]
    · simp [natDigits, h, Nat.ofDigits_digits]
  · refine ⟨?_, ?_⟩
    · by_cases h : n = 0
      · simp [natDigits, h]
      · simp [natDigits, h, Nat.digits_ne_nil_iff_ne_zero]
    · simp only [List.all_eq_true, decide_eq_true_eq]
      exact natDigits_lt n

/-- Parsing printed fraction digits recovers them. -/
theorem parseFrac_map_val (fd : List (Fin 10)) : parseFrac (fd.map Fin.val) = some fd := by
  induction fd with
  | nil => rfl
  | cons d fd ih =>
    simp only [parseFrac, List.map_cons, List.mapM_cons] at *
    rw [dif_pos d.isLt]
    rw [ih]
    simp

/-- A `takeWhile`/`dropWhile` pair splits off a prefix on which the
predicate holds, up to the first failing element. -/
theorem takeWhile_dropWhile_split {α} (p : α → Bool) (l₁ : List α) (a : α) (l₂ : List α)
    (h : ∀ x ∈ l₁, p x = true) (ha : p a = false) :
    (l₁ ++ a :: l₂).takeWhile p = l₁ ∧ (l₁ ++ a :: l₂).dropWhile p = a :: l₂ := by
  induction l₁ with
  | nil =>
    simp [List.takeWhile_cons, List.dropWhile_cons, ha]
  | cons b l ih =>
    have hb : p b = true := h b (by simp)
    have hrec := ih fun x hx => h x (by simp [hx])
    simp [List.takeWhile_cons, List.dropWhile_cons, hb, hrec.1, hrec.2]

/-- Parsing a printed cell value recovers it. -/
theorem parseCell_printCell (c : Cell) : parseCell (printCell c) = some c := by
  obtain ⟨ip, fd⟩ := c
  have hsplit := takeWhile_dropWhile_split (fun d => d ≠ dotSym)
    (natDigits ip) dotSym (fd.map Fin.val)
    (fun x hx => by
      simp only [ne_eq, decide_eq_true_eq]
      have := natDigits_lt ip x hx
      unfold dotSym
      omega)
    (by simp)
  unfold parseCell printCell
  rw [hsplit.1, hsplit.2]
  simp only
  rw [parseNatField_natDigits, parseFrac_map_val]
  rfl

/-- Decoding the encoding of a list element-for-element succeeds with the
original list. -/
theorem mapM_of_map {α β : Type} (l : List α) (enc : α → β) (dec : β → Option α)
    (h : ∀ a ∈ l, dec (enc a) = some a) : (l.map enc).mapM dec = some l := by
  induction l with
  | nil => rfl
  | cons a l ih =>
    simp only [List.map_cons, List.mapM_cons]
    rw [h a (by simp), ih fun x hx => h x (by simp [hx])]
    rfl

/-- C4: reading back a series written to the flat-file representation
returns it exactly — same columns in the same order, same row order, same
timestamps, same cell values — for every series whose index carries the
canonical `Timestamp` label (every series the normalizers produce). -/
theorem csv_roundtrip (name : String) (df : DataFrame)
    (store : String → Option CSVFile) (h : df.indexName = "Timestamp") :
    CSVHandler.CSVToDataframe name (CSVHandler.dataframeToCSV name df store) =
      some df := by
  obtain ⟨ix, cols, rows⟩ := df
  simp only at h
  subst h
  unfold CSVHandler.CSVToDataframe CSVHandler.dataframeToCSV
  rw [if_pos rfl, Option.some_bind]
  unfold CSVHandler.decode CSVHandler.encode
  simp only [if_true]
  rw [mapM_of_map rows _ _ ?_]
  · rfl
  · intro r _
    simp only
    rw [parseNatField_natDigits]
    simp only [Option.bind_eq_bind, Option.some_bind]
    rw [mapM_of_map r.2 _ _ fun cell _ => parseCell_printCell cell]
    rfl

/-- Witness for C4: round trip of the concrete three-row series through an
empty store. -/
theorem csv_roundtrip_witness :
    CSVHandler.CSVToDataframe "data"
      (CSVHandler.dataframeToCSV "data" exSeries fun _ => none) = some exSeries :=
  csv_roundtrip "data" exSeries (fun _ => none) rfl

/-! ## Normalization of the three providers -/

/-- Effect of the AlphaVantage cell pipeline (copy `adjusted_close` over
`close`, erase the three provider columns) on one well-formed row. -/
theorem avCells_eq (l : List Cell) (h : l.length = 8) :
    (((l.set 3 (l.getD 4 default)).eraseIdx 4).eraseIdx 5).eraseIdx 5 =
      [l.getD 0 default, l.getD 1 default, l.getD 2 default,
       l.getD 4 default, l.getD 5 default] := by
  rcases l with _|⟨a,_|⟨b,_|⟨c,_|⟨d,_|⟨e,_|⟨f,_|⟨g,_|⟨k,rest⟩⟩⟩⟩⟩⟩⟩⟩ <;>
    simp only [List.length_cons, List.length_nil] at h
  all_goals first
    | omega
    | (obtain rfl : rest = [] := List.length_eq_zero.mp (by omega); rfl)

/-- Closed form of `AlphaVantage.processDataframe` on a well-formed parsed
payload: the canonical five columns, rows reversed, `Close` holding the
delivered `adjusted_close` values. -/
theorem av_process_eq (df : DataFrame) (hc : df.cols = avRawCols)
    (hw : ∀ r ∈ df.rows, r.2.length = 8) :
    AlphaVantage.processDataframe df = some
      { indexName := "Timestamp"
        cols := canonicalCols
        rows := (df.rows.map fun r =>
          (r.1, [r.2.getD 0 default, r.2.getD 1 default, r.2.getD 2 default,
                 r.2.getD 4 default, r.2.getD 5 default])).reverse } := by
  obtain ⟨ix, cols, rows⟩ := df
  simp only [DataFrame.cols] at hc
  subst hc
  simp only [DataFrame.rows] at hw
  simp only [AlphaVantage.processDataframe, DataFrame.reverseRows, DataFrame.setColFrom,
    DataFrame.getCol, DataFrame.setCol, DataFrame.delCol, DataFrame.colIdx,
    DataFrame.setIndexName, DataFrame.renameCols, avRawCols]
  simp +decide only [List.findIdx?_cons, List.findIdx?_nil, Option.map_some,
    Option.some_bind, Option.bind_some, if_true, if_false, DataFrame.setCol,
    DataFrame.colIdx, Option.pure_def, Option.map_some', Nat.reduceAdd,
    Option.bind_eq_bind, List.eraseIdx]
  simp only [Option.some.injEq, DataFrame.mk.injEq]
  refine ⟨trivial, by decide, ?_⟩
  rw [List.zipWith_map_right, List.zipWith_same]
  simp only [List.map_map, List.map_reverse]
  refine congrArg List.reverse ?_
  refine List.map_congr_left fun r hr => ?_
  have h8 : r.2.length = 8 := hw r hr
  simp only [Function.comp_apply]
  rw [avCells_eq r.2 h8]

/-- Effect of the Yahoo cell pipeline (copy `Adj Close` over `Close`, erase
`Adj Close`, project the five canonical columns) on one well-formed row. -/
theorem yahooCells_eq (l : List Cell) (h : l.length = 6) :
    List.map (fun i => ((l.set 3 (l.getD 4 default)).eraseIdx 4).getD i default)
        [0, 1, 2, 3, 4] =
      [l.getD 0 default, l.getD 1 default, l.getD 2 default,
       l.getD 4 default, l.getD 5 default] := by
  rcases l with _|⟨a,_|⟨b,_|⟨c,_|⟨d,_|⟨e,_|⟨f,rest⟩⟩⟩⟩⟩⟩ <;>
    simp only [List.length_cons, List.length_nil] at h
  all_goals first
    | omega
    | (obtain rfl : rest = [] := List.length_eq_zero.mp (by omega); rfl)

/-- Closed form of `YahooFinance.processDataframe` on a well-formed parsed
payload: the canonical five columns in the input row order, `Close`
holding the delivered `Adj Close` values. -/
theorem yahoo_process_eq (df : DataFrame) (hc : df.cols = yahooRawCols)
    (hw : ∀ r ∈ df.rows, r.2.length = 6) :
    YahooFinance.processDataframe df = some
      { indexName := "Timestamp"
        cols := canonicalCols
        rows := df.rows.map fun r =>
          (r.1, [r.2.getD 0 default, r.2.getD 1 default, r.2.getD 2 default,
                 r.2.getD 4 default, r.2.getD 5 default]) } := by
  obtain ⟨ix, cols, rows⟩ := df
  simp only [DataFrame.cols] at hc
  subst hc
  simp only [DataFrame.rows] at hw
  simp +decide only [YahooFinance.processDataframe, DataFrame.setColFrom, DataFrame.getCol,
    DataFrame.setCol, DataFrame.delCol, DataFrame.colIdx, DataFrame.setIndexName,
    DataFrame.selectCols, yahooRawCols, List.findIdx?_cons, List.findIdx?_nil,
    Option.map_some', Option.some_bind, Option.bind_eq_bind, Option.pure_def,
    if_true, if_false, Nat.reduceAdd, List.eraseIdx, List.mapM_cons, List.mapM_nil,
    canonicalCols]
  simp only [Option.some.injEq, DataFrame.mk.injEq]
  refine ⟨trivial, by decide, ?_⟩
  rw [List.zipWith_map_right, List.zipWith_same]
  simp only [List.map_map]
  refine List.map_congr_left fun r hr => ?_
  have h6 : r.2.length = 6 := hw r hr
  simp only [Function.comp_apply]
  rw [yahooCells_eq r.2 h6]

/-- Closed form of `Binance.processDataframe` on a frame carrying the kline
columns: the canonical five columns, rows sorted by timestamp. -/
theorem binance_process_eq (df : DataFrame) (hc : df.cols = klinesColumns.tail) :
    Binance.processDataframe df = some
      { indexName := df.indexName
        cols := canonicalCols
        rows := (df.rows.mergeSort rowLE).map fun r =>
          (r.1, [r.2.getD 0 default, r.2.getD 1 default, r.2.getD 2 default,
                 r.2.getD 3 default, r.2.getD 4 default]) } := by
  obtain ⟨ix, cols, rows⟩ := df
  simp only [DataFrame.cols] at hc
  subst hc
  simp +decide only [Binance.processDataframe, DataFrame.sortIndex, DataFrame.selectCols,
    DataFrame.colIdx, klinesColumns, List.tail_cons, List.findIdx?_cons, List.findIdx?_nil,
    List.mapM_cons, List.mapM_nil, Option.map_some', Option.some_bind, Option.pure_def,
    Option.bind_eq_bind, if_true, if_false, Nat.reduceAdd, canonicalCols,
    List.map_cons, List.map_nil]

/-! ## Ordering, column and row-preservation claims -/

/-- Timestamps of the series are in non-decreasing order. -/
def sortedTs (df : DataFrame) : Prop :=
  df.rows.Pairwise fun a b => a.1 ≤ b.1

/-- The row comparison used by `sort_index` is transitive. -/
theorem rowLE_trans : ∀ a b c : Nat × List Cell, rowLE a b → rowLE b c → rowLE a c := by
  intro a b c
  simp only [rowLE, decide_eq_true_eq]
  omega

/-- The row comparison used by `sort_index` is total. -/
theorem rowLE_total : ∀ a b : Nat × List Cell, rowLE a b || rowLE b a := by
  intro a b
  simp only [rowLE, Bool.or_eq_true, decide_eq_true_eq]
  omega

/-- Every output of `Binance.processDataframe` has non-decreasing
timestamps, for arbitrary input row order: its first step is a genuine
sort. -/
theorem binance_output_sorted (df out : DataFrame)
    (h : Binance.processDataframe df = some out) : sortedTs out := by
  obtain ⟨is, -, rfl⟩ := Option.map_eq_some'.mp h
  simp only [sortedTs, DataFrame.sortIndex]
  rw [List.pairwise_map]
  have hs := List.sorted_mergeSort rowLE_trans rowLE_total df.rows
  exact hs.imp fun hab => by simpa [rowLE] using hab

/-- Concrete Alpha Vantage cell row used in counterexamples and witnesses. -/
def exAvCells : List Cell :=
  [⟨3, [0]⟩, ⟨4, [5]⟩, ⟨2, [5]⟩, ⟨3, [7]⟩, ⟨3, [5]⟩, ⟨1000, [0]⟩, ⟨0, [0]⟩, ⟨1, [0]⟩]

/-- A two-row Alpha Vantage payload delivered newest-first, as the
provider sends it. -/
def exAvPayload : DataFrame :=
  { indexName := "timestamp"
    cols := avRawCols
    rows := [(2, exAvCells), (1, exAvCells)] }

/-- The same Alpha Vantage payload delivered oldest-first instead. -/
def exAvAscending : DataFrame :=
  { indexName := "timestamp"
    cols := avRawCols
    rows := [(1, exAvCells), (2, exAvCells)] }

/-- The five canonical cells kept from `exAvCells`. -/
def exAvKept : List Cell :=
  [⟨3, [0]⟩, ⟨4, [5]⟩, ⟨2, [5]⟩, ⟨3, [5]⟩, ⟨1000, [0]⟩]

/-- Result of normalizing the oldest-first Alpha Vantage payload. -/
def exAvAscOut : DataFrame :=
  { indexName := "Timestamp"
    cols := canonicalCols
    rows := [(2, exAvKept), (1, exAvKept)] }

/-- C1 counterexample: the AlphaVantage normalization applied to an
oldest-first payload returns timestamps in strictly decreasing order — the
step is an unconditional reversal, not a sort, so the non-decreasing
output-order guarantee fails when the input is not newest-first. -/
theorem normalization_sort_counterexample :
    AlphaVantage.processDataframe exAvAscending = some exAvAscOut ∧
      ¬ sortedTs exAvAscOut := by
  constructor
  · decide
  · simp only [sortedTs, exAvAscOut, List.pairwise_cons]
    intro h
    have := h.1 (1, exAvKept) (by simp)
    omega

/-- Concrete Yahoo cell row. -/
def exYahooCells : List Cell :=
  [⟨1, [0]⟩, ⟨2, [0]⟩, ⟨0, [5]⟩, ⟨1, [5]⟩, ⟨1, [4]⟩, ⟨900, [0]⟩]

/-- A two-row Yahoo payload delivered in chronological order. -/
def exYahooPayload : DataFrame :=
  { indexName := "Date"
    cols := yahooRawCols
    rows := [(1, exYahooCells), (2, exYahooCells)] }

/-- Concrete kline fields (the eleven positions after the open time). -/
def exKlineFields : List Cell :=
  [⟨7, [0]⟩, ⟨9, [5]⟩, ⟨6, [5]⟩, ⟨8, [1]⟩, ⟨50, [0]⟩, ⟨2, [0]⟩,
   ⟨400, [0]⟩, ⟨12, [0]⟩, ⟨25, [0]⟩, ⟨200, [0]⟩, ⟨0, [0]⟩]

/-- A two-record kline payload delivered out of order. -/
def exKlines : List Kline :=
  [⟨2, exKlineFields⟩, ⟨1, exKlineFields⟩]

/-- C1 (amended): only the Binance normalization sorts unconditionally and
guarantees non-decreasing timestamps for every input row order; the
AlphaVantage normalization reverses the rows, so its output is
non-decreasing exactly when the payload is delivered newest-first; the
YahooFinance normalization leaves the row order untouched, so its output is
non-decreasing exactly when the payload is already delivered so. -/
theorem normalization_ordering_by_provider :
    (∀ df out : DataFrame, Binance.processDataframe df = some out → sortedTs out) ∧
    (∀ df : DataFrame, df.cols = avRawCols → (∀ r ∈ df.rows, r.2.length = 8) →
      (df.rows.Pairwise fun a b => b.1 ≤ a.1) →
      ∃ out, AlphaVantage.processDataframe df = some out ∧ sortedTs out) ∧
    (∀ df : DataFrame, df.cols = yahooRawCols → (∀ r ∈ df.rows, r.2.length = 6) →
      ∃ out, YahooFinance.processDataframe df = some out ∧
        out.rows.map Prod.fst = df.rows.map Prod.fst) := by
  refine ⟨binance_output_sorted, fun df hc hw hrev => ?_, fun df hc hw => ?_⟩
  · refine ⟨_, av_process_eq df hc hw, ?_⟩
    simp only [sortedTs, List.pairwise_reverse, List.pairwise_map]
    exact hrev
  · refine ⟨_, yahoo_process_eq df hc hw, ?_⟩
    simp [List.map_map, Function.comp]

/-- Witness for the amended C1 at concrete payloads. -/
theorem normalization_ordering_by_provider_witness :
    (∃ out, AlphaVantage.processDataframe exAvPayload = some out ∧ sortedTs out) ∧
    (∃ out, YahooFinance.processDataframe exYahooPayload = some out ∧
      out.rows.map Prod.fst = exYahooPayload.rows.map Prod.fst) :=
  ⟨normalization_ordering_by_provider.2.1 exAvPayload rfl (by decide)
      (by simp [exAvPayload, List.pairwise_cons]),
   normalization_ordering_by_provider.2.2 exYahooPayload rfl (by decide)⟩

/-- C2: for every provider and every well-formed parsed payload, the
normalized series has exactly the five columns `Open, High, Low, Close,
Volume`, in that fixed order, and no other column survives. -/
theorem normalized_columns_canonical :
    (∀ df : DataFrame, df.cols = avRawCols → (∀ r ∈ df.rows, r.2.length = 8) →
      ∃ out, AlphaVantage.processDataframe df = some out ∧ out.cols = canonicalCols) ∧
    (∀ df : DataFrame, df.cols = yahooRawCols → (∀ r ∈ df.rows, r.2.length = 6) →
      ∃ out, YahooFinance.processDataframe df = some out ∧ out.cols = canonicalCols) ∧
    (∀ df : DataFrame, df.cols = klinesColumns.tail →
      ∃ out, Binance.processDataframe df = some out ∧ out.cols = canonicalCols) :=
  ⟨fun df hc hw => ⟨_, av_process_eq df hc hw, rfl⟩,
   fun df hc hw => ⟨_, yahoo_process_eq df hc hw, rfl⟩,
   fun df hc => ⟨_, binance_process_eq df hc, rfl⟩⟩

/-- Witness for C2 at concrete payloads of all three providers. -/
theorem normalized_columns_canonical_witness :
    (∃ out, AlphaVantage.processDataframe exAvPayload = some out ∧
      out.cols = canonicalCols) ∧
    (∃ out, YahooFinance.processDataframe exYahooPayload = some out ∧
      out.cols = canonicalCols) ∧
    (∃ out, Binance.processDataframe (klinesToDataframe exKlines) = some out ∧
      out.cols = canonicalCols) :=
  ⟨normalized_columns_canonical.1 exAvPayload rfl (by decide),
   normalized_columns_canonical.2.1 exYahooPayload rfl (by decide),
   normalized_columns_canonical.2.2 (klinesToDataframe exKlines) rfl⟩

/-- C10: every provider's normalization keeps exactly one output row per
input row — a permutation of the rows (their five kept cells), so rows
sharing a timestamp are all retained and none is dropped, merged or
invented. -/
theorem normalization_preserves_rows :
    (∀ df : DataFrame, df.cols = avRawCols → (∀ r ∈ df.rows, r.2.length = 8) →
      ∃ out, AlphaVantage.processDataframe df = some out ∧
        out.rows.length = df.rows.length ∧
        out.rows.Perm (df.rows.map fun r =>
          (r.1, [r.2.getD 0 default, r.2.getD 1 default, r.2.getD 2 default,
                 r.2.getD 4 default, r.2.getD 5 default]))) ∧
    (∀ df : DataFrame, df.cols = yahooRawCols → (∀ r ∈ df.rows, r.2.length = 6) →
      ∃ out, YahooFinance.processDataframe df = some out ∧
        out.rows.length = df.rows.length ∧
        out.rows.Perm (df.rows.map fun r =>
          (r.1, [r.2.getD 0 default, r.2.getD 1 default, r.2.getD 2 default,
                 r.2.getD 4 default, r.2.getD 5 default]))) ∧
    (∀ df : DataFrame, df.cols = klinesColumns.tail →
      ∃ out, Binance.processDataframe df = some out ∧
        out.rows.length = df.rows.length ∧
        out.rows.Perm (df.rows.map fun r =>
          (r.1, [r.2.getD 0 default, r.2.getD 1 default, r.2.getD 2 default,
                 r.2.getD 3 default, r.2.getD 4 default]))) := by
  refine ⟨fun df hc hw => ⟨_, av_process_eq df hc hw, ?_, ?_⟩,
          fun df hc hw => ⟨_, yahoo_process_eq df hc hw, ?_, ?_⟩,
          fun df hc => ⟨_, binance_process_eq df hc, ?_, ?_⟩⟩
  · simp
  · exact (List.map _ df.rows).reverse_perm
  · simp
  · exact List.Perm.refl _
  · simp
  · exact (List.mergeSort_perm df.rows rowLE).map _

/-- Witness for C10 at a concrete payload with a duplicated timestamp. -/
theorem normalization_preserves_rows_witness :
    ∃ out, Binance.processDataframe
        (klinesToDataframe [⟨2, exKlineFields⟩, ⟨1, exKlineFields⟩, ⟨1, exKlineFields⟩]) =
          some out ∧
      out.rows.length =
        (klinesToDataframe [⟨2, exKlineFields⟩, ⟨1, exKlineFields⟩, ⟨1, exKlineFields⟩]).rows.length ∧
      out.rows.Perm
        ((klinesToDataframe [⟨2, exKlineFields⟩, ⟨1, exKlineFields⟩, ⟨1, exKlineFields⟩]).rows.map
          fun r => (r.1, [r.2.getD 0 default, r.2.getD 1 default, r.2.getD 2 default,
                          r.2.getD 3 default, r.2.getD 4 default])) :=
  normalization_preserves_rows.2.2
    (klinesToDataframe [⟨2, exKlineFields⟩, ⟨1, exKlineFields⟩, ⟨1, exKlineFields⟩]) rfl

/-- C6: on a well-formed Alpha-Vantage-style payload the normalization
drops `dividend_amount` and `split_coefficient`, installs the delivered
`adjusted_close` values as the `Close` column, and reverses the row order
(newest-first input therefore becomes oldest-first). -/
theorem av_normalization_semantics (df : DataFrame) (hc : df.cols = avRawCols)
    (hw : ∀ r ∈ df.rows, r.2.length = 8) :
    ∃ out, AlphaVantage.processDataframe df = some out ∧
      out.cols = canonicalCols ∧
      "dividend_amount" ∉ out.cols ∧
      "split_coefficient" ∉ out.cols ∧
      out.getCol "Close" = (df.getCol "adjusted_close").map List.reverse ∧
      out.rows.map Prod.fst = (df.rows.map Prod.fst).reverse := by
  refine ⟨_, av_process_eq df hc hw, rfl, by simp [canonicalCols], by simp [canonicalCols], ?_, ?_⟩
  · simp only [DataFrame.getCol, DataFrame.colIdx, hc, avRawCols, canonicalCols,
      List.findIdx?_cons, List.findIdx?_nil]
    simp +decide only [if_true, if_false, Nat.reduceAdd, Option.map_some']
    simp only [Option.some.injEq, List.map_reverse, List.map_map]
    rfl
  · simp only [List.map_reverse, List.map_map]
    rfl

/-- Witness for C6 at the concrete newest-first payload. -/
theorem av_normalization_semantics_witness :
    ∃ out, AlphaVantage.processDataframe exAvPayload = some out ∧
      out.cols = canonicalCols ∧
      "dividend_amount" ∉ out.cols ∧
      "split_coefficient" ∉ out.cols ∧
      out.getCol "Close" = (exAvPayload.getCol "adjusted_close").map List.reverse ∧
      out.rows.map Prod.fst = (exAvPayload.rows.map Prod.fst).reverse :=
  av_normalization_semantics exAvPayload rfl (by decide)

/-! ## Intraday stitching -/

/-- Strict key order on rows. -/
def rowLT (a b : Nat × List Cell) : Prop := a.1 < b.1

/-- Non-decreasing plus pairwise-distinct keys is strictly increasing. -/
theorem pairwise_lt_of_le_of_ne (l : List (Nat × List Cell))
    (hle : l.Pairwise fun a b => a.1 ≤ b.1)
    (hne : l.Pairwise fun a b => a.1 ≠ b.1) : l.Pairwise rowLT :=
  (hle.and hne).imp fun h => Nat.lt_of_le_of_ne h.1 h.2

/-- Key distinctness of a row list, written through the key projection. -/
theorem pairwise_ne_of_nodup_keys (l : List (Nat × List Cell))
    (h : (l.map Prod.fst).Nodup) : l.Pairwise fun a b => a.1 ≠ b.1 :=
  List.pairwise_map.mp h

/-- Sorting the flattened blocks equals flattening the individually sorted
blocks, whenever the blocks occupy strictly separated key ranges and each
block has pairwise distinct keys. -/
theorem mergeSort_flatten_blocks (bs : List (List (Nat × List Cell)))
    (h1 : ∀ b ∈ bs, (b.map Prod.fst).Nodup)
    (h2 : bs.Pairwise fun b1 b2 => ∀ a ∈ b1, ∀ c ∈ b2, a.1 < c.1) :
    bs.flatten.mergeSort rowLE = (bs.map fun b => b.mergeSort rowLE).flatten := by
  letI : IsAntisymm (Nat × List Cell) rowLT :=
    ⟨fun a b hab hba => absurd hba (by unfold rowLT at *; omega)⟩
  have hRperm : (bs.map fun b => b.mergeSort rowLE).flatten.Perm bs.flatten := by
    induction bs with
    | nil => exact List.Perm.refl _
    | cons b bs ih =>
      simp only [List.map_cons, List.flatten_cons]
      exact (List.mergeSort_perm b rowLE).append (ih (fun x hx => h1 x (by simp [hx]))
        (List.pairwise_cons.mp h2).2)
  have hLperm : (bs.flatten.mergeSort rowLE).Perm bs.flatten := List.mergeSort_perm _ _
  have hkeys : (bs.flatten.map Prod.fst).Nodup := by
    apply List.pairwise_map.mpr
    rw [List.pairwise_flatten]
    refine ⟨fun b hb => pairwise_ne_of_nodup_keys b (h1 b hb), ?_⟩
    exact h2.imp fun h a ha c hc => Nat.ne_of_lt (h a ha c hc)
  have hL : (bs.flatten.mergeSort rowLE).Pairwise rowLT := by
    refine pairwise_lt_of_le_of_ne _ ?_ ?_
    · exact (List.sorted_mergeSort rowLE_trans rowLE_total bs.flatten).imp
        fun h => by simpa [rowLE] using h
    · refine pairwise_ne_of_nodup_keys _ ?_
      exact ((hLperm.map Prod.fst).nodup_iff).mpr hkeys
  have hR : ((bs.map fun b => b.mergeSort rowLE).flatten).Pairwise rowLT := by
    rw [List.pairwise_flatten]
    constructor
    · intro b hb
      obtain ⟨b0, hb0, rfl⟩ := List.mem_map.mp hb
      refine pairwise_lt_of_le_of_ne _ ?_ ?_
      · exact (List.sorted_mergeSort rowLE_trans rowLE_total b0).imp
          fun h => by simpa [rowLE] using h
      · refine pairwise_ne_of_nodup_keys _ ?_
        exact (((List.mergeSort_perm b0 rowLE).map Prod.fst).nodup_iff).mpr (h1 b0 hb0)
    · rw [List.pairwise_map]
      exact h2.imp fun h a ha c hc =>
        h a (List.mem_mergeSort.mp ha) c (List.mem_mergeSort.mp hc)
  exact List.eq_of_perm_of_sorted (hLperm.trans hRperm.symm) hL hR

/-- Evaluating `mapM` on a list where the action succeeds pointwise. -/
theorem mapM_eq_some_map {α β : Type} (l : List α) (f : α → Option β) (g : α → β)
    (h : ∀ a ∈ l, f a = some (g a)) : l.mapM f = some (l.map g) := by
  induction l with
  | nil => rfl
  | cons a l ih =>
    simp only [List.mapM_cons, h a (by simp), ih fun x hx => h x (by simp [hx]),
      List.map_cons]
    rfl

/-- The day windows enumerated by `pd.date_range` are strictly separated:
each day starts a full day after the previous one. -/
theorem dateRange_pairwise (s e : Nat) :
    (dateRange s e).Pairwise fun d1 d2 => d1 + msPerDay ≤ d2 := by
  unfold dateRange
  split
  · rw [List.pairwise_map]
    refine (List.pairwise_lt_range _).imp ?_
    intro i j hij
    simp only [msPerDay]
    omega
  · exact List.Pairwise.nil

/-- A requested range with at least one day yields a nonempty day list. -/
theorem dateRange_ne_nil (s e : Nat) (h : s ≤ e) : dateRange s e ≠ [] := by
  unfold dateRange
  rw [if_pos h]
  simp

/-- Core of the stitching equivalence at the row level: sorting the
concatenation of the per-day parsed rows equals concatenating the per-day
sorted rows, when every fetched kline lies inside its day window, the
windows are strictly separated and open times are distinct within a day. -/
theorem stitch_rows_eq (dayList : List Nat) (fetch : Nat → List Kline)
    (hwin : ∀ d ∈ dayList, ∀ k ∈ fetch d, d ≤ k.openTime ∧ k.openTime < d + msPerDay)
    (hsep : dayList.Pairwise fun d1 d2 => d1 + msPerDay ≤ d2)
    (hnd : ∀ d ∈ dayList, ((fetch d).map Kline.openTime).Nodup) :
    (dayList.map fun d => (fetch d).map fun k => (k.openTime, k.fields)).flatten.mergeSort
        rowLE =
      (dayList.map fun d =>
        ((fetch d).map fun k => (k.openTime, k.fields)).mergeSort rowLE).flatten := by
  have key := mergeSort_flatten_blocks
    (dayList.map fun d => (fetch d).map fun k => (k.openTime, k.fields)) ?_ ?_
  · rw [key, List.map_map]
    rfl
  · intro b hb
    obtain ⟨d, hd, rfl⟩ := List.mem_map.mp hb
    rw [List.map_map]
    exact hnd d hd
  · rw [List.pairwise_map]
    refine (List.Pairwise.and_mem.mp hsep).imp ?_
    rintro d1 d2 ⟨hd1, hd2, hsep'⟩ a ha c hc
    obtain ⟨k1, hk1, rfl⟩ := List.mem_map.mp ha
    obtain ⟨k2, hk2, rfl⟩ := List.mem_map.mp hc
    have hb1 := hwin d1 hd1 k1 hk1
    have hb2 := hwin d2 hd2 k2 hk2
    simp only at hb1 hb2 ⊢
    omega

/-- C5: the stitched intraday result (normalize once after concatenating
the per-day parsed payloads in chronological day order) equals the
chronological concatenation of the independently normalized single-day
series, for every fetch function — the result depends only on which day
each payload belongs to, never on the order answers were obtained — and
every valid set of payloads (klines inside their day window, distinct open
times within a day). -/
theorem binance_stitch_refines_per_day_concat (fetch : Nat → List Kline)
    (s e : Nat) (hse : s ≤ e)
    (hwin : ∀ d ∈ dateRange s e, ∀ k ∈ fetch d,
      d ≤ k.openTime ∧ k.openTime < d + msPerDay)
    (hnd : ∀ d ∈ dateRange s e, ((fetch d).map Kline.openTime).Nodup) :
    Binance.stitchIntraday fetch s e =
      ((dateRange s e).mapM fun d =>
        Binance.processDataframe (klinesToDataframe (fetch d))).bind
          concatDataframes := by
  have hS : ∀ d ∈ dateRange s e,
      Binance.processDataframe (klinesToDataframe (fetch d)) =
        some { indexName := "Timestamp"
               cols := canonicalCols
               rows := (((fetch d).map fun k => (k.openTime, k.fields)).mergeSort
                 rowLE).map fun r =>
                   (r.1, [r.2.getD 0 default, r.2.getD 1 default, r.2.getD 2 default,
                          r.2.getD 3 default, r.2.getD 4 default]) } :=
    fun d _ => binance_process_eq (klinesToDataframe (fetch d)) rfl
  obtain ⟨d0, ds, hcons⟩ := List.exists_cons_of_ne_nil (dateRange_ne_nil s e hse)
  have hrows := stitch_rows_eq (dateRange s e) fetch hwin (dateRange_pairwise s e) hnd
  rw [Binance.stitchIntraday, mapM_eq_some_map _ _ _ hS, Option.some_bind]
  rw [hcons]
  simp only [List.map_cons, concatDataframes, Option.some_bind]
  rw [binance_process_eq _ rfl]
  rw [hcons] at hrows
  simp only [List.map_cons] at hrows
  simp only [klinesToDataframe, List.map_map, Function.comp_def] at hrows ⊢
  rw [hrows]
  simp only [List.map_flatten, List.map_cons, List.map_map, Function.comp_def]

/-- A concrete per-day fetch: two klines per day, delivered out of order
inside their day window. -/
def exFetch (d : Nat) : List Kline :=
  [⟨d + 1000, exKlineFields⟩, ⟨d, exKlineFields⟩]

/-- Witness for C5: the stitched result over the concrete three-day range
`[0, 2 days]` equals the concatenation of the three independently
normalized single-day series. -/
theorem binance_stitch_refines_per_day_concat_witness :
    Binance.stitchIntraday exFetch 0 172800000 =
      ((dateRange 0 172800000).mapM fun d =>
        Binance.processDataframe (klinesToDataframe (exFetch d))).bind
          concatDataframes :=
  binance_stitch_refines_per_day_concat exFetch 0 172800000 (by decide)
    (by decide) (by decide)
